import Mathlib

/-!
Verification of the antidote-agent specification against a shallow Lean
embedding of the Go sources.

Go strings are modelled as `List Char` (`GoStr`); for the strings appearing
in the claims this coincides with Go's byte strings (UTF-8 is
order-preserving, and all concrete inputs are ASCII).  Go `int` is modelled
as `Int`, `time.Time`/`time.Duration` as `Int` nanoseconds.  Stateful Go
methods become pure state-passing functions.  Compiled regular expressions
(`regexp.Regexp`) are abstracted as boolean match functions, and SHA-256 /
Ed25519 primitives are abstracted at the interface the claims speak about
(canonical byte strings, signature hashes).
-/

namespace Antidote

/-- Go strings, as their sequence of code points. -/
abbrev GoStr := List Char

/-- Shorthand turning a Lean string literal into a `GoStr`. -/
def str (s : String) : GoStr := s.data

/-- `strings.HasPrefix(s, p)` (argument order: pattern first). -/
def hasPref (p s : GoStr) : Bool :=
  match p with
  | [] => true
  | ph :: pt =>
    match s with
    | [] => false
    | sh :: st => ph == sh && hasPref pt st

/-- `strings.HasSuffix(s, p)` (argument order: pattern first). -/
def hasSuff (p s : GoStr) : Bool :=
  hasPref p.reverse s.reverse

/-- `strings.Split(s, sep)` for a one-character separator. -/
def splitOnChar (sep : Char) : GoStr → List GoStr
  | [] => [[]]
  | c :: rest =>
    match splitOnChar sep rest with
    | [] => [[c]]
    | h :: t => if c = sep then [] :: h :: t else (c :: h) :: t

/-- `strings.Join(parts, sep)` for a one-character separator. -/
def joinChar (sep : Char) : List GoStr → GoStr
  | [] => []
  | [s] => s
  | s :: rest => s ++ sep :: joinChar sep rest

/-- Go's `unicode.IsSpace` (the White_Space code points). -/
def isGoSpace (c : Char) : Bool :=
  let n := c.toNat
  (9 ≤ n && n ≤ 13) || n = 32 || n = 0x85 || n = 0xA0 || n = 0x1680 ||
  (0x2000 ≤ n && n ≤ 0x200A) || n = 0x2028 || n = 0x2029 || n = 0x202F ||
  n = 0x205F || n = 0x3000

/-- `strings.TrimSpace`. -/
def goTrimSpace (s : GoStr) : GoStr :=
  ((s.dropWhile isGoSpace).reverse.dropWhile isGoSpace).reverse

/-- `strings.ReplaceAll(s, string(c), "")`: delete every occurrence of `c`. -/
def removeAllChar (c : Char) (s : GoStr) : GoStr :=
  s.filter (fun x => !(x == c))

/-- `strings.Contains(s, string(c))` for a one-character pattern. -/
def containsChar (c : Char) (s : GoStr) : Bool :=
  s.any (fun x => x == c)

/-- `strings.Contains(s, sub)`. -/
def containsSub (s sub : GoStr) : Bool :=
  if hasPref sub s then true
  else
    match s with
    | [] => false
    | _ :: t => containsSub t sub

/-- ASCII fragment of Go's `strings.ToLower`. -/
def goLowerChar (c : Char) : Char :=
  if 'A' ≤ c ∧ c ≤ 'Z' then Char.ofNat (c.toNat + 32) else c

/-- ASCII fragment of Go's `strings.ToUpper`. -/
def goUpperChar (c : Char) : Char :=
  if 'a' ≤ c ∧ c ≤ 'z' then Char.ofNat (c.toNat - 32) else c

/-- `strings.ToLower` (ASCII fragment; the inputs in the claims are ASCII). -/
def goToLower (s : GoStr) : GoStr := s.map goLowerChar

/-- `strings.ToUpper` (ASCII fragment). -/
def goToUpper (s : GoStr) : GoStr := s.map goUpperChar

/-- Bytewise-lexicographic `<=` on Go strings, as used by `sort.Strings`
(UTF-8 byte order and code-point order agree). -/
def strLe : GoStr → GoStr → Bool
  | [], _ => true
  | _ :: _, [] => false
  | a :: as, b :: bs => if a = b then strLe as bs else decide (a < b)

/-- `path/filepath.Clean` for Unix paths, in the segment-stack formulation of
the four rules documented on `Clean`: collapse multiple separators, drop `.`
elements, fold a non-leading `..` with the preceding element, and drop `..`
elements that begin a rooted path. -/
def cleanPath (path : GoStr) : GoStr :=
  let rooted := hasPref (str "/") path
  let stack := (splitOnChar '/' path).foldl
    (fun st seg =>
      if seg = [] ∨ seg = str "." then st
      else if seg = str ".." then
        match st.getLast? with
        | some l => if l = str ".." then st ++ [str ".."] else st.dropLast
        | none => if rooted then st else st ++ [str ".."]
      else st ++ [seg]) []
  if stack = [] then (if rooted then str "/" else str ".")
  else (if rooted then '/' :: joinChar '/' stack else joinChar '/' stack)

/-! ## internal/security/validator.go -/

/-- `security.ValidationError` (code and message). -/
structure ValidationError where
  code : GoStr
  message : GoStr
deriving DecidableEq

/-- A compiled deny pattern: the abstraction of a `*regexp.Regexp`, carrying
its source text (`pattern.String()`) and its match function `MatchString`. -/
structure DenyPattern where
  source : GoStr
  matchString : GoStr → Bool

/-- The fragment of `messages.AppConfig` the validator reads (only `Deny`). -/
structure AppConfig where
  deny : List GoStr

/-- The fragment of `messages.AppInfo` the validator reads. -/
structure AppInfo where
  path : GoStr
  config : Option AppConfig

/-- `messages.CommandMessage` (the fields the validator reads; `env` is the
map as an association list in Go's iteration order). -/
structure CommandMessage where
  id : GoStr
  command : GoStr
  workingDir : GoStr
  env : List (GoStr × GoStr)
  timeout : Int

/-- `security.Validator`'s state (`appConfigs`, `allowedPaths`,
`denyPatterns`). -/
structure Validator where
  appConfigs : List (GoStr × AppConfig)
  allowedPaths : List GoStr
  denyPatterns : List DenyPattern

/-- Limits from validator.go. -/
def maxCommandLength : Nat := 65536

def maxCommandIDLen : Nat := 256

def maxEnvVarNameLen : Nat := 256

def maxEnvVarValueLen : Nat := 32768

def maxTimeout : Int := 3600

/-- `security.ProtectedEnvVars` (the key set of the Go map). -/
def protectedEnvVars : List GoStr :=
  [str "PATH", str "LD_PRELOAD", str "LD_LIBRARY_PATH",
   str "DYLD_INSERT_LIBRARIES", str "DYLD_LIBRARY_PATH",
   str "HOME", str "USER", str "SHELL", str "IFS"]

/-- `security.isSpaceObfuscatedTraversal`: starts and ends with a dot,
contains a space, and deleting all dots and spaces leaves nothing. -/
def isSpaceObfuscatedTraversal (s : GoStr) : Bool :=
  if !(hasPref (str ".") s && hasSuff (str ".") s) then false
  else if !(containsChar ' ' s) then false
  else removeAllChar ' ' (removeAllChar '.' s) = []

/-- `security.containsPathTraversal`: split on `/`, trim each part, flag
exact `..` or a space-obfuscated traversal. -/
def containsPathTraversal (path : GoStr) : Bool :=
  (splitOnChar '/' path).any fun part =>
    let trimmed := goTrimSpace part
    trimmed = str ".." || isSpaceObfuscatedTraversal trimmed

/-- `(*Validator).validateWorkingDir`. -/
def validateWorkingDir (v : Validator) (dir : GoStr) : Option ValidationError :=
  let cleanDir := cleanPath dir
  if containsChar '\x00' dir then
    some ⟨str "PATH_TRAVERSAL", str "working directory contains null byte"⟩
  else if containsPathTraversal dir then
    some ⟨str "PATH_TRAVERSAL", str "working directory contains path traversal"⟩
  else if v.allowedPaths = [] then none
  else if v.allowedPaths.any (fun allowed => hasPref allowed cleanDir) then none
  else
    some ⟨str "INVALID_WORKING_DIR",
      str "working directory " ++ dir ++ str " is not within any allowed application path"⟩

/-- `(*Validator).validateEnvVars`, iterating the env pairs in order. -/
def validateEnvVars : List (GoStr × GoStr) → Option ValidationError
  | [] => none
  | (name, value) :: rest =>
    if name.length > maxEnvVarNameLen then
      some ⟨str "ENV_NAME_TOO_LONG",
        str "environment variable name exceeds maximum length of 256"⟩
    else if value.length > maxEnvVarValueLen then
      some ⟨str "ENV_VALUE_TOO_LONG",
        str "environment variable value exceeds maximum length of 32768"⟩
    else if protectedEnvVars.contains (goToUpper name) then
      some ⟨str "PROTECTED_ENV_VAR",
        str "cannot override protected environment variable: " ++ name⟩
    else if name.any (fun c => c = '\x00' ∨ c = '=') then
      some ⟨str "INVALID_ENV_NAME",
        str "environment variable name contains invalid characters: " ++ name⟩
    else validateEnvVars rest

/-- The scan inside `security.stripInlineComments`: position of the first
`#` that is outside single and double quotes and not escaped. -/
def stripScan : GoStr → Bool → Bool → Bool → Nat → Option Nat
  | [], _, _, _, _ => none
  | ch :: rest, inSingle, inDouble, escaped, i =>
    if escaped then stripScan rest inSingle inDouble false (i + 1)
    else if ch = '\\' then stripScan rest inSingle inDouble true (i + 1)
    else if ch = '\'' then
      stripScan rest (if !inDouble then !inSingle else inSingle) inDouble false (i + 1)
    else if ch = '"' then
      stripScan rest inSingle (if !inSingle then !inDouble else inDouble) false (i + 1)
    else if ch = '#' then
      if !inSingle && !inDouble then some i
      else stripScan rest inSingle inDouble false (i + 1)
    else stripScan rest inSingle inDouble false (i + 1)

/-- `security.stripInlineComments`: cut the command at the first unquoted,
unescaped `#` and trim the remainder. -/
def stripInlineComments (cmd : GoStr) : GoStr :=
  match stripScan cmd false false false 0 with
  | some i => goTrimSpace (cmd.take i)
  | none => cmd

/-- The per-line loop of `(*Validator).checkDenyPatterns`. -/
def checkDenyLines (pats : List DenyPattern) : List GoStr → Option ValidationError
  | [] => none
  | line :: rest =>
    let line := goTrimSpace line
    if line = [] ∨ hasPref (str "#") line then checkDenyLines pats rest
    else
      let cmdToCheck := stripInlineComments line
      if cmdToCheck = [] then checkDenyLines pats rest
      else
        let normalizedCmd := goToLower cmdToCheck
        match pats.find? (fun p => p.matchString cmdToCheck || p.matchString normalizedCmd) with
        | some p =>
          some ⟨str "COMMAND_DENIED", str "command matches denied pattern: " ++ p.source⟩
        | none => checkDenyLines pats rest

/-- `(*Validator).checkDenyPatterns`: trim the body, return `nil` outright
when the trimmed body starts with `#`, otherwise run the per-line loop on
the newline-split body. -/
def checkDenyPatterns (pats : List DenyPattern) (command : GoStr) : Option ValidationError :=
  let trimmedCmd := goTrimSpace command
  if hasPref (str "#") trimmedCmd then none
  else checkDenyLines pats (splitOnChar '\n' trimmedCmd)

/-- `(*Validator).ValidateCommand`: the check sequence of validator.go
lines 202-248. -/
def validateCommand (v : Validator) (cmd : CommandMessage) : Option ValidationError :=
  if cmd.id.length > maxCommandIDLen then
    some ⟨str "COMMAND_ID_TOO_LONG", str "command ID exceeds maximum length of 256"⟩
  else if cmd.command.length > maxCommandLength then
    some ⟨str "COMMAND_TOO_LONG", str "command exceeds maximum length of 65536 bytes"⟩
  else if cmd.timeout > maxTimeout then
    some ⟨str "TIMEOUT_TOO_LONG", str "timeout exceeds maximum of 3600 seconds"⟩
  else
    match (if cmd.workingDir ≠ [] then validateWorkingDir v cmd.workingDir else none) with
    | some e => some e
    | none =>
      match validateEnvVars cmd.env with
      | some e => some e
      | none => checkDenyPatterns v.denyPatterns cmd.command

/-- State-passing form of `ValidateCommand`: the Go method takes only a read
lock and assigns no field of the validator, so the state it hands back is
the state it received. -/
def validateCommandS (v : Validator) (cmd : CommandMessage) :
    Option ValidationError × Validator :=
  (validateCommand v cmd, v)

/-- The working-directory guard inside `ValidateCommand` (lines 231-235):
an empty field skips `validateWorkingDir` entirely. -/
def workingDirCheck (v : Validator) (dir : GoStr) : Option ValidationError :=
  if dir ≠ [] then validateWorkingDir v dir else none

/-- `(*Validator).UpdateApps`: reset the config map and allowed paths from
the discovered apps and recompile the deny patterns (defaults plus each
app's `Deny` list).  `compilePats` abstracts `compileDenyPatterns` and
`defaultPats` the `DefaultDenyPatterns` source list. -/
def updateApps (compilePats : List GoStr → List DenyPattern) (defaultPats : List GoStr)
    (_v : Validator) (apps : List AppInfo) : Validator :=
  { appConfigs := apps.filterMap fun a => a.config.map fun c => (cleanPath a.path, c)
    allowedPaths := apps.map fun a => cleanPath a.path
    denyPatterns := compilePats (defaultPats ++ apps.flatMap fun a =>
      match a.config with
      | some c => c.deny
      | none => []) }

/-- `security.NewValidator`: empty config map and allowed paths, default
deny patterns compiled. -/
def newValidator (compilePats : List GoStr → List DenyPattern)
    (defaultPats : List GoStr) : Validator :=
  { appConfigs := [], allowedPaths := [], denyPatterns := compilePats defaultPats }

/-! ## internal/signing (verifier.go) -/

/-- `signing.SignedCommand` (the fields entering the canonical form; `env`
is the Go map as an association list). -/
structure SignedCommand where
  type : GoStr
  id : GoStr
  command : GoStr
  workingDir : GoStr
  env : List (GoStr × GoStr)
  timeout : Int
  timestamp : GoStr
  nonce : GoStr

/-- Decimal digit character, as produced by `fmt.Sprintf("%d", ·)`. -/
def digitChar (d : Nat) : Char := Char.ofNat (48 + d)

/-- Decimal rendering of a natural number (`%d`), via its base-10 digits. -/
def natDec (n : Nat) : GoStr := (Nat.digits 10 n).reverse.map digitChar

/-- Env pairs ordered by key, as produced by sorting the key slice with
`sort.Strings` and then emitting `env.<NAME>=<VALUE>` per key (the keys of
a Go map are distinct, so sorting the pairs by key is the same thing). -/
def sortEnv (env : List (GoStr × GoStr)) : List (GoStr × GoStr) :=
  List.insertionSort (fun a b : GoStr × GoStr => strLe a.1 b.1 = true) env

/-- `sort.Strings`. -/
def sortStrings (parts : List GoStr) : List GoStr :=
  List.insertionSort (fun a b : GoStr => strLe a b = true) parts

/-- The five fixed lines `createCanonicalMessage` always emits. -/
def fixedParts (c : SignedCommand) : List GoStr :=
  [str "command=" ++ c.command,
   str "id=" ++ c.id,
   str "nonce=" ++ c.nonce,
   str "timestamp=" ++ c.timestamp,
   str "type=" ++ c.type]

/-- The optional `working_dir` line (emitted when `WorkingDir != ""`). -/
def wdParts (c : SignedCommand) : List GoStr :=
  if c.workingDir = [] then [] else [str "working_dir=" ++ c.workingDir]

/-- The optional `timeout` line (emitted when `Timeout > 0`, in decimal). -/
def toParts (c : SignedCommand) : List GoStr :=
  if c.timeout > 0 then [str "timeout=" ++ natDec c.timeout.toNat] else []

/-- The `env.<NAME>=<VALUE>` lines, keys sorted. -/
def envParts (c : SignedCommand) : List GoStr :=
  (sortEnv c.env).map fun kv => str "env." ++ kv.1 ++ '=' :: kv.2

/-- The `parts` slice built by `(*Verifier).createCanonicalMessage` before
the final sort, in its append order: the five fixed `key=value` lines, then
optional `working_dir` and positive `timeout`, then the sorted
`env.<NAME>=<VALUE>` lines. -/
def canonicalParts (c : SignedCommand) : List GoStr :=
  fixedParts c ++ wdParts c ++ toParts c ++ envParts c

/-- `(*Verifier).createCanonicalMessage`: all parts sorted and joined by
newlines.  This byte string is the exact Ed25519 message, so two commands
with equal canonical messages accept exactly the same signatures. -/
def canonicalMessage (c : SignedCommand) : GoStr :=
  joinChar '\n' (sortStrings (canonicalParts c))

/-- Why a timestamp check fails, from verifier.go's error values. -/
inductive TimestampError where
  | messageFromFuture
  | messageExpired
deriving DecidableEq

/-- 30 seconds in nanoseconds (the clock-skew tolerance). -/
def skewToleranceNs : Int := 30 * 1000000000

/-- `signing.MaxMessageAge` (5 minutes) in nanoseconds. -/
def maxMessageAgeNs : Int := 300 * 1000000000

/-- `(*Verifier).validateTimestamp` on an already-parsed RFC3339 timestamp,
with times as nanoseconds: `age := now - msgTime`; reject the future beyond
30 s of skew, reject ages beyond `MaxMessageAge`. -/
def validateTimestamp (msgTime now : Int) : Option TimestampError :=
  let age := now - msgTime
  if age < -skewToleranceNs then some .messageFromFuture
  else if age > maxMessageAgeNs then some .messageExpired
  else none

/-! ## internal/executor (executeCommand / Cancel) -/

/-- Outcome of `cmd.Wait()` as the executor's error analysis sees it:
no error, an `*exec.ExitError` (normal non-zero exit or signal kill, with
its `ExitCode()`), or any other error. -/
inductive WaitOutcome where
  | success
  | exitError (code : Int)
  | otherError
deriving DecidableEq

/-- Lines 554-564 of the executor: exit-code normalization after
`cmd.Wait()`.  The `*exec.ExitError` branch is tested first; the 124
branch is reached only for non-`ExitError` failures under an expired
deadline. -/
def normalizeExitCode (w : WaitOutcome) (ctxDeadlineExceeded : Bool) : Int :=
  match w with
  | .success => 0
  | .exitError c => c
  | .otherError => if ctxDeadlineExceeded then 124 else 1

/-- How one run of `executeCommand` went: a pipe-creation failure, a
`cmd.Start()` failure, or a completed `cmd.Wait()` with the context's
deadline state. -/
inductive ExecOutcome where
  | pipeFailure
  | startFailure
  | ran (w : WaitOutcome) (ctxDeadlineExceeded : Bool)
deriving DecidableEq

/-- The exit code `executeCommand` passes to `sendComplete`: `1` on the two
spawn-failure paths, the normalized code after a completed `Wait`. -/
def executeExitCode : ExecOutcome → Int
  | .pipeFailure => 1
  | .startFailure => 1
  | .ran w d => normalizeExitCode w d

/-- The `CompleteMessage`s emitted by one run of `executeCommand`: every
path ends in exactly one `sendComplete` call. -/
def executeCompletes (id : GoStr) (o : ExecOutcome) : List (GoStr × Int) :=
  [(id, executeExitCode o)]

/-- The `running` map of `executor.Executor`: command id to cancel token
(tokens stand for the `context.CancelFunc` values, which are never nil). -/
structure Executor where
  running : List (GoStr × Nat)

/-- `(*Executor).Cancel`: look the id up under the mutex; if present fire
its cancel function and report `true`, else report `false`.  The returned
`Option Nat` is the token fired (the map itself is not modified here —
deletion happens in the command goroutine's deferred cleanup). -/
def cancel (e : Executor) (id : GoStr) : Bool × Executor × Option Nat :=
  match List.lookup id e.running with
  | some tok => (true, e, some tok)
  | none => (false, e, none)

/-! ## internal/logmonitor/dedup.go -/

/-- `logmonitor.DedupEntry` (times as nanoseconds, counters as Go ints). -/
structure DedupEntry where
  signatureHash : GoStr
  firstSeen : Int
  lastSeen : Int
  occurrenceCount : Int
  windowStart : Int
  windowCount : Int
deriving DecidableEq

/-- `logmonitor.Deduplicator` state: the signature map plus the two
runtime-configurable limits. -/
structure Deduplicator where
  entries : List (GoStr × DedupEntry)
  rateWindow : Int
  maxPerWindow : Int

/-- Assignment into a Go map modelled as an association list. -/
def mapSet {β : Type} : List (GoStr × β) → GoStr → β → List (GoStr × β)
  | [], k, v => [(k, v)]
  | (k', v') :: t, k, v =>
    if k' = k then (k, v) :: t else (k', v') :: mapSet t k v

/-- `(*Deduplicator).ShouldEmit`, with the SHA-256 signature of the line
precomputed (`computeSignature` is a fixed function of the line, so one
line fed repeatedly always presents the same `hash`). -/
def shouldEmit (d : Deduplicator) (hash : GoStr) (now : Int) :
    Bool × DedupEntry × Deduplicator :=
  match List.lookup hash d.entries with
  | none =>
    let e : DedupEntry := ⟨hash, now, now, 1, now, 1⟩
    (true, e, { d with entries := mapSet d.entries hash e })
  | some existing =>
    let e1 := { existing with
                lastSeen := now
                occurrenceCount := existing.occurrenceCount + 1 }
    if now - e1.windowStart > d.rateWindow then
      let e2 := { e1 with windowStart := now, windowCount := 1 }
      (true, e2, { d with entries := mapSet d.entries hash e2 })
    else
      let e2 := { e1 with windowCount := e1.windowCount + 1 }
      if e2.windowCount ≤ d.maxPerWindow then
        (true, e2, { d with entries := mapSet d.entries hash e2 })
      else
        (false, e2, { d with entries := mapSet d.entries hash e2 })

/-- Feed one signature to `ShouldEmit` at each time in `ts`, collecting
each call's `(emit, entry.OccurrenceCount)`. -/
def feedDedup (d : Deduplicator) (hash : GoStr) : List Int →
    List (Bool × Int) × Deduplicator
  | [] => ([], d)
  | t :: ts =>
    let r := shouldEmit d hash t
    let rest := feedDedup r.2.2 hash ts
    ((r.1, r.2.1.occurrenceCount) :: rest.1, rest.2)

/-! ## internal/logmonitor/matcher.go -/

/-- `logmonitor.Match`. -/
structure MatchRec where
  source : GoStr
  errorLine : GoStr
  contextBefore : List GoStr
  contextAfter : List GoStr
deriving DecidableEq

/-- `logmonitor.Matcher` state (the handler is modelled by returning the
emitted matches). -/
structure Matcher where
  patterns : List GoStr
  contextLines : Nat
  buffer : List GoStr
  bufferPos : Nat
  bufferCount : Nat
  capturing : Bool
  captureMatch : MatchRec
  captureAfterCount : Nat

/-- `logmonitor.NewMatcher`: a non-positive context count falls back to 20;
the ring buffer starts as `contextLines` empty strings. -/
def newMatcher (patterns : List GoStr) (contextLines : Int) : Matcher :=
  let n : Nat := if contextLines ≤ 0 then 20 else contextLines.toNat
  { patterns := patterns, contextLines := n, buffer := List.replicate n [],
    bufferPos := 0, bufferCount := 0, capturing := false,
    captureMatch := ⟨[], [], [], []⟩, captureAfterCount := 0 }

/-- `(*Matcher).matchesPattern`: case-insensitive substring match against
any pattern. -/
def matchesPattern (patterns : List GoStr) (line : GoStr) : Bool :=
  let lineLower := goToLower line
  patterns.any fun pattern => containsSub lineLower (goToLower pattern)

/-- `(*Matcher).getContextBefore`: read the ring buffer in chronological
order (from index 0 while it is not yet full, else from `bufferPos`
around). -/
def getContextBefore (m : Matcher) : List GoStr :=
  if m.bufferCount = 0 then []
  else if m.bufferCount < m.contextLines then
    (List.range m.bufferCount).map fun i => m.buffer.getD i []
  else
    (List.range m.contextLines).map fun i =>
      m.buffer.getD ((m.bufferPos + i) % m.contextLines) []

/-- Stage 1 of `(*Matcher).ProcessLine`: if capturing, append the line to
`ContextAfter`, bump the counter, and emit when the quota fills. -/
def captureStep (m : Matcher) (line : GoStr) : List MatchRec × Matcher :=
  if m.capturing then
    if m.captureAfterCount + 1 ≥ m.contextLines then
      ([{ m.captureMatch with contextAfter := m.captureMatch.contextAfter ++ [line] }],
       { m with
         captureMatch :=
           { m.captureMatch with contextAfter := m.captureMatch.contextAfter ++ [line] },
         capturing := false, captureAfterCount := 0 })
    else
      (([] : List MatchRec),
       { m with
         captureMatch :=
           { m.captureMatch with contextAfter := m.captureMatch.contextAfter ++ [line] },
         captureAfterCount := m.captureAfterCount + 1 })
  else ([], m)

/-- Stage 2 of `ProcessLine`: on a pattern match, emit a still-pending
capture and start a new one from the ring-buffer snapshot. -/
def matchStep (m : Matcher) (source line : GoStr) : List MatchRec × Matcher :=
  if matchesPattern m.patterns line then
    if m.capturing then
      ([m.captureMatch],
       { m with captureMatch := ⟨source, line, getContextBefore m, []⟩,
                capturing := true, captureAfterCount := 0 })
    else
      (([] : List MatchRec),
       { m with captureMatch := ⟨source, line, getContextBefore m, []⟩,
                capturing := true, captureAfterCount := 0 })
  else ([], m)

/-- Stage 3 of `ProcessLine`: append the line to the ring buffer. -/
def bufferStep (m : Matcher) (line : GoStr) : Matcher :=
  { m with
    buffer := m.buffer.set m.bufferPos line,
    bufferPos := (m.bufferPos + 1) % m.contextLines,
    bufferCount := if m.bufferCount < m.contextLines then m.bufferCount + 1
                   else m.bufferCount }

/-- `(*Matcher).ProcessLine`, returning the matches handed to the handler
together with the new state: the three stages in order.  (Emitting resets
only `capturing`/`captureAfterCount`, and `getContextBefore` reads only the
ring-buffer fields, which stages 1-2 do not touch, so the snapshot taken in
stage 2 is the buffer as of before this line.) -/
def processLine (m : Matcher) (source line : GoStr) : List MatchRec × Matcher :=
  let s1 := captureStep m line
  let s2 := matchStep s1.2 source line
  (s1.1 ++ s2.1, bufferStep s2.2 line)

/-- `(*Matcher).Flush`: emit a pending capture. -/
def flushMatcher (m : Matcher) : List MatchRec × Matcher :=
  if m.capturing then
    ([m.captureMatch], { m with capturing := false, captureAfterCount := 0 })
  else ([], m)

/-- Run `ProcessLine` over a list of lines, keeping only the final state. -/
def runLines (m : Matcher) (source : GoStr) (ls : List GoStr) : Matcher :=
  ls.foldl (fun s l => (processLine s source l).2) m

/-- Ring-buffer representation invariant: after the lines `p` have been
processed, the buffer holds the most recent `min |p| N` of them, reading
backwards from the write position. -/
def ringInv (m : Matcher) (p : List GoStr) : Prop :=
  m.buffer.length = m.contextLines ∧
  m.bufferCount = min p.length m.contextLines ∧
  m.bufferPos = p.length % m.contextLines ∧
  ∀ i < min p.length m.contextLines,
    m.buffer.getD ((m.bufferPos + (m.contextLines - 1 - i)) % m.contextLines) [] =
      p.getD (p.length - 1 - i) []

/-! ## Predicates stated in the spec's words (for comparison with the code) -/

/-- The deny check as the spec words it, on one body: some newline-split
line survives the skip rules (not blank, not a `#` comment, non-empty after
inline-comment stripping) and some deny pattern matches its stripped text or
the lowercased copy. -/
def specRemainingLineDenied (pats : List DenyPattern) (body : GoStr) : Prop :=
  ∃ line ∈ splitOnChar '\n' (goTrimSpace body),
    ¬(goTrimSpace line = [] ∨ hasPref (str "#") (goTrimSpace line) = true) ∧
    stripInlineComments (goTrimSpace line) ≠ [] ∧
    ∃ p ∈ pats,
      p.matchString (stripInlineComments (goTrimSpace line)) = true ∨
      p.matchString (goToLower (stripInlineComments (goTrimSpace line))) = true

/-- A deny pattern whose compiled regex is the literal text `rm -rf /`
(that literal has no metacharacters, so its `MatchString` is substring
search). -/
def rmPat : DenyPattern :=
  ⟨str "rm -rf /", fun s => containsSub s (str "rm -rf /")⟩

/-- The space-obfuscated-segment shape claimed for `PATH_TRAVERSAL`: after
trimming, the segment starts with a dot, ends with a dot, contains a space,
and consists solely of dots and spaces. -/
def specObfuscatedSeg (t : GoStr) : Prop :=
  t.head? = some '.' ∧ t.getLast? = some '.' ∧ ' ' ∈ t ∧ ∀ c ∈ t, c = '.' ∨ c = ' '

/-- A `/`-separated segment the claim says is flagged: after trimming
surrounding spaces it equals `..` or has the space-obfuscated shape. -/
def specTraversalSeg (seg : GoStr) : Prop :=
  goTrimSpace seg = str ".." ∨ specObfuscatedSeg (goTrimSpace seg)

/-- No newline in a Go string (the canonical form separates lines by
newlines, so this is the well-formedness the injectivity claim needs). -/
def noNL (s : GoStr) : Prop := '\n' ∉ s

/-- Well-formed signed command: no signed field contains a newline, env
names contain neither `=` nor a newline, env values contain no newline, and
env names are distinct (they are the keys of a Go map). -/
def wfSigned (c : SignedCommand) : Prop :=
  noNL c.type ∧ noNL c.id ∧ noNL c.command ∧ noNL c.workingDir ∧
  noNL c.timestamp ∧ noNL c.nonce ∧
  (∀ kv ∈ c.env, noNL kv.1 ∧ noNL kv.2 ∧ '=' ∉ kv.1) ∧
  (c.env.map Prod.fst).Nodup

/-! ## Theorems -/

/-- Unfolding equation for `validateTimestamp` without the `let`. -/
theorem validateTimestamp_eq (msgTime now : Int) :
    validateTimestamp msgTime now =
      if now - msgTime < -skewToleranceNs then some .messageFromFuture
      else if now - msgTime > maxMessageAgeNs then some .messageExpired
      else none := rfl

/-- C4: with signature, timestamp and nonce present and the timestamp
parsed (times in nanoseconds), the check fails `MessageFromFuture` exactly
when the timestamp is more than 30 s ahead of now, fails `MessageExpired`
exactly when it is more than 5 min behind, and passes otherwise; in
particular `now + 30 s` and `now − 5 min + 1 s` pass while `now + 31 s` and
`now − 5 min − 1 s` fail. -/
theorem claim4_replay_window :
    (∀ msgTime now : Int,
      (validateTimestamp msgTime now = some .messageFromFuture ↔
        now + skewToleranceNs < msgTime) ∧
      (validateTimestamp msgTime now = some .messageExpired ↔
        maxMessageAgeNs < now - msgTime) ∧
      (validateTimestamp msgTime now = none ↔
        (msgTime ≤ now + skewToleranceNs ∧ now - msgTime ≤ maxMessageAgeNs))) ∧
    (∀ now : Int,
      validateTimestamp (now + 30 * 1000000000) now = none ∧
      validateTimestamp (now - 5 * 60 * 1000000000 + 1000000000) now = none ∧
      validateTimestamp (now + 31 * 1000000000) now = some .messageFromFuture ∧
      validateTimestamp (now - 5 * 60 * 1000000000 - 1000000000) now =
        some .messageExpired) := by
  constructor
  · intro msgTime now
    rw [validateTimestamp_eq]
    unfold skewToleranceNs maxMessageAgeNs
    split_ifs with h1 h2 <;> refine ⟨?_, ?_, ?_⟩ <;>
      (try simp only [Option.some.injEq, reduceCtorEq]) <;>
      constructor <;> intro h <;> first | trivial | omega
  · intro now
    refine ⟨?_, ?_, ?_, ?_⟩ <;>
      (rw [validateTimestamp_eq]
       unfold skewToleranceNs maxMessageAgeNs
       split_ifs <;> first | rfl | omega)

/-- C9: `ValidateCommand` is read-only: the validator state it hands back —
allowed paths, app-config map and compiled deny patterns — is exactly the
incoming one, whatever result the validation produces. -/
theorem claim9_validate_readonly :
    ∀ (v : Validator) (cmd : CommandMessage),
      (validateCommandS v cmd).2.allowedPaths = v.allowedPaths ∧
      (validateCommandS v cmd).2.appConfigs = v.appConfigs ∧
      (validateCommandS v cmd).2.denyPatterns = v.denyPatterns ∧
      (validateCommandS v cmd).1 = validateCommand v cmd :=
  fun _ _ => ⟨rfl, rfl, rfl, rfl⟩

/-- C10: `Cancel(id)` returns true and fires the tracked command's cancel
token exactly when `id` is in the running map; for an untracked id it
returns false and changes nothing (the map is untouched in both cases). -/
theorem claim10_cancel :
    (∀ (e : Executor) (id : GoStr) (tok : Nat),
      List.lookup id e.running = some tok →
      cancel e id = (true, e, some tok)) ∧
    (∀ (e : Executor) (id : GoStr),
      List.lookup id e.running = none →
      cancel e id = (false, e, none)) := by
  constructor
  · intro e id tok h
    simp [cancel, h]
  · intro e id h
    simp [cancel, h]

/-- Witness for C10 at a concrete running map. -/
theorem claim10_cancel_witness :
    (List.lookup (str "c1") (Executor.mk [(str "c1", 7)]).running = some 7 ∧
      cancel (Executor.mk [(str "c1", 7)]) (str "c1") =
        (true, Executor.mk [(str "c1", 7)], some 7)) ∧
    (List.lookup (str "c2") (Executor.mk [(str "c1", 7)]).running = none ∧
      cancel (Executor.mk [(str "c1", 7)]) (str "c2") =
        (false, Executor.mk [(str "c1", 7)], none)) :=
  ⟨⟨by decide, claim10_cancel.1 _ _ 7 (by decide)⟩,
   ⟨by decide, claim10_cancel.2 _ _ (by decide)⟩⟩

/-- Unfolding equation for `validateWorkingDir` without the `let`. -/
theorem validateWorkingDir_eq (v : Validator) (dir : GoStr) :
    validateWorkingDir v dir =
      if containsChar '\x00' dir then
        some ⟨str "PATH_TRAVERSAL", str "working directory contains null byte"⟩
      else if containsPathTraversal dir then
        some ⟨str "PATH_TRAVERSAL", str "working directory contains path traversal"⟩
      else if v.allowedPaths = [] then none
      else if v.allowedPaths.any (fun allowed => hasPref allowed (cleanPath dir)) then none
      else
        some ⟨str "INVALID_WORKING_DIR",
          str "working directory " ++ dir ++
            str " is not within any allowed application path"⟩ := rfl

/-- A one-dot pattern is a prefix exactly when the head is a dot. -/
theorem hasPref_dot_iff (t : GoStr) :
    hasPref (str ".") t = true ↔ t.head? = some '.' := by
  cases t with
  | nil => simp [hasPref, str]
  | cons c cs =>
    simp [hasPref, str, @eq_comm Char c]

/-- A one-dot pattern is a suffix exactly when the last element is a dot. -/
theorem hasSuff_dot_iff (t : GoStr) :
    hasSuff (str ".") t = true ↔ t.getLast? = some '.' := by
  unfold hasSuff
  rw [show (str ".").reverse = str "." from rfl, hasPref_dot_iff, List.head?_reverse]

/-- `containsChar` decides membership. -/
theorem containsChar_iff (c : Char) (s : GoStr) :
    containsChar c s = true ↔ c ∈ s := by
  simp [containsChar, List.any_eq_true, @eq_comm Char c]

/-- Deleting the dots and then the spaces leaves nothing exactly when every
character is a dot or a space. -/
theorem removeAll_dots_spaces_iff (s : GoStr) :
    removeAllChar ' ' (removeAllChar '.' s) = [] ↔ ∀ c ∈ s, c = '.' ∨ c = ' ' := by
  unfold removeAllChar
  rw [List.filter_filter, List.filter_eq_nil_iff]
  constructor
  · intro h c hc
    have := h c hc
    simp at this
    tauto
  · intro h c hc
    have := h c hc
    simp
    tauto

/-- The code's space-obfuscation test agrees with the claimed shape. -/
theorem isSpaceObfuscated_iff (t : GoStr) :
    isSpaceObfuscatedTraversal t = true ↔ specObfuscatedSeg t := by
  unfold isSpaceObfuscatedTraversal specObfuscatedSeg
  split_ifs with h1 h2
  · simp only [Bool.not_eq_eq_eq_not, Bool.not_true, Bool.and_eq_false_iff] at h1
    constructor
    · intro h
      cases h
    · intro ⟨hh, hl, _, _⟩
      rcases h1 with h1 | h1
      · rw [← hasPref_dot_iff t] at hh
        simp [h1] at hh
      · rw [← hasSuff_dot_iff t] at hl
        simp [h1] at hl
  · simp only [Bool.not_eq_eq_eq_not, Bool.not_true] at h2
    constructor
    · intro h
      cases h
    · intro ⟨_, _, hs, _⟩
      rw [← containsChar_iff ' ' t] at hs
      simp [h2] at hs
  · have h1' : (hasPref (str ".") t && hasSuff (str ".") t) = true := by
      revert h1
      cases hasPref (str ".") t && hasSuff (str ".") t <;> simp
    have h2' : containsChar ' ' t = true := by
      revert h2
      cases containsChar ' ' t <;> simp
    rw [Bool.and_eq_true] at h1'
    rw [decide_eq_true_eq, removeAll_dots_spaces_iff,
        ← hasPref_dot_iff t, ← hasSuff_dot_iff t, ← containsChar_iff ' ' t]
    constructor
    · intro h
      exact ⟨h1'.1, h1'.2, h2', h⟩
    · intro ⟨_, _, _, h⟩
      exact h

/-- Per-segment agreement with the claimed traversal shape. -/
theorem traversalSeg_iff (seg : GoStr) :
    (goTrimSpace seg = str ".." || isSpaceObfuscatedTraversal (goTrimSpace seg)) = true ↔
      specTraversalSeg seg := by
  unfold specTraversalSeg
  rw [Bool.or_eq_true, ← isSpaceObfuscated_iff]
  simp

/-- C8: the working directory is rejected with `PATH_TRAVERSAL` exactly when
some `/`-separated segment, after trimming, equals `..` or consists solely
of dots and spaces starting and ending with a dot and containing a space;
`. . .` and `.. ..` are flagged while `...` is not. -/
theorem claim8_space_obfuscated :
    (∀ path : GoStr, containsPathTraversal path = true ↔
      ∃ seg ∈ splitOnChar '/' path, specTraversalSeg seg) ∧
    (∀ (v : Validator) (dir : GoStr), containsPathTraversal dir = true →
      ∃ e, validateWorkingDir v dir = some e ∧ e.code = str "PATH_TRAVERSAL") ∧
    containsPathTraversal (str "/x/. . ./y") = true ∧
    containsPathTraversal (str "/x/.. ../y") = true ∧
    containsPathTraversal (str "/x/.../y") = false := by
  refine ⟨?_, ?_, by decide, by decide, by decide⟩
  · intro path
    unfold containsPathTraversal
    rw [List.any_eq_true]
    exact exists_congr fun seg => and_congr_right fun _ => traversalSeg_iff seg
  · intro v dir h
    by_cases hnul : containsChar '\x00' dir = true
    · exact ⟨⟨str "PATH_TRAVERSAL", str "working directory contains null byte"⟩,
        by rw [validateWorkingDir_eq]; simp [hnul], rfl⟩
    · exact ⟨⟨str "PATH_TRAVERSAL", str "working directory contains path traversal"⟩,
        by rw [validateWorkingDir_eq]; simp [hnul, h], rfl⟩

/-- Witness for C8 at the claimed concrete segment `. . .`. -/
theorem claim8_space_obfuscated_witness :
    containsPathTraversal (str "/x/. . ./y") = true ∧
    ∃ e, validateWorkingDir (newValidator (fun _ => []) []) (str "/x/. . ./y") = some e ∧
      e.code = str "PATH_TRAVERSAL" :=
  ⟨by decide,
   claim8_space_obfuscated.2.1 (newValidator (fun _ => []) []) (str "/x/. . ./y") (by decide)⟩

/-- Looking up the key just stored by `mapSet`. -/
theorem lookup_mapSet {β : Type} (m : List (GoStr × β)) (k : GoStr) (v : β) :
    List.lookup k (mapSet m k v) = some v := by
  induction m with
  | nil => simp [mapSet, List.lookup]
  | cons kv t ih =>
    obtain ⟨k', v'⟩ := kv
    by_cases h : k' = k
    · simp [mapSet, h, List.lookup]
    · have hkk : (k == k') = false := by
        simpa using Ne.symm h
      simp only [mapSet, if_neg h, List.lookup, hkk]
      exact ih

/-- Rate-limit run: starting from an entry whose window opened at `t1` with
`occurrenceCount = windowCount = j`, every further call inside the window
bumps the count and emits exactly while the new window count stays within
`maxPerWindow`. -/
theorem feedDedup_run (hash : GoStr) :
    ∀ (ts : List Int) (d : Deduplicator) (t1 last j : Int),
      List.lookup hash d.entries = some ⟨hash, t1, last, j, t1, j⟩ →
      (∀ t ∈ ts, t - t1 ≤ d.rateWindow) →
      (feedDedup d hash ts).1 =
        (List.range ts.length).map
          (fun (i : Nat) =>
            (decide (j + 1 + (i : Int) ≤ d.maxPerWindow), j + 1 + (i : Int))) := by
  intro ts
  induction ts with
  | nil =>
    intro d t1 last j hl hts
    rfl
  | cons t ts ih =>
    intro d t1 last j hl hts
    have hw : ¬(t - t1 > d.rateWindow) := by
      have := hts t (by simp)
      omega
    have hstep : shouldEmit d hash t =
        (decide ((j + 1 : Int) ≤ d.maxPerWindow),
         ⟨hash, t1, t, j + 1, t1, j + 1⟩,
         { d with entries := mapSet d.entries hash ⟨hash, t1, t, j + 1, t1, j + 1⟩ }) := by
      by_cases hm : (j + 1 : Int) ≤ d.maxPerWindow <;>
        simp [shouldEmit, hl, hw, hm]
    have htail := ih { d with entries := mapSet d.entries hash ⟨hash, t1, t, j + 1, t1, j + 1⟩ }
      t1 t (j + 1) (lookup_mapSet _ _ _) (fun u hu => hts u (by simp [hu]))
    simp only [feedDedup, hstep, htail, List.length_cons]
    rw [List.range_succ_eq_map, List.map_cons, List.map_map]
    refine congrArg₂ _ (by norm_num) ?_
    refine List.map_congr_left fun i _ => ?_
    have : (j + 1 + 1 + (i : Int)) = (j + 1 + ((i : Nat) + 1 : Nat) : Int) := by
      push_cast
      ring
    simp [Function.comp, this]

/-- C6: feeding one error line n times inside a single rate window with
`max_per_window = m ≥ 1` emits exactly the first min(n, m) calls while
`occurrence_count` rises by one on every call (counts beyond m exist only in
the suppressed entries); the first sighting of a new signature always
emits; a call after the window has elapsed resets the window and emits. -/
theorem claim6_dedup_rate_limit :
    (∀ (d : Deduplicator) (hash : GoStr) (t1 : Int) (ts : List Int),
      List.lookup hash d.entries = none →
      (1 : Int) ≤ d.maxPerWindow →
      (∀ t ∈ ts, t - t1 ≤ d.rateWindow) →
      (feedDedup d hash (t1 :: ts)).1 =
        (List.range (ts.length + 1)).map
          (fun (i : Nat) =>
            (decide ((1 : Int) + (i : Int) ≤ d.maxPerWindow), (1 : Int) + (i : Int)))) ∧
    (∀ (d : Deduplicator) (hash : GoStr) (now : Int),
      List.lookup hash d.entries = none →
      (shouldEmit d hash now).1 = true ∧
      (shouldEmit d hash now).2.1 = ⟨hash, now, now, 1, now, 1⟩) ∧
    (∀ (d : Deduplicator) (hash : GoStr) (now : Int) (e : DedupEntry),
      List.lookup hash d.entries = some e →
      now - e.windowStart > d.rateWindow →
      (shouldEmit d hash now).1 = true ∧
      (shouldEmit d hash now).2.1 =
        { e with lastSeen := now, occurrenceCount := e.occurrenceCount + 1,
                 windowStart := now, windowCount := 1 }) := by
  refine ⟨?_, ?_, ?_⟩
  · intro d hash t1 ts hl hm hts
    have hfirst : shouldEmit d hash t1 =
        (true, ⟨hash, t1, t1, 1, t1, 1⟩,
         { d with entries := mapSet d.entries hash ⟨hash, t1, t1, 1, t1, 1⟩ }) := by
      simp [shouldEmit, hl, mapSet]
    have htail := feedDedup_run hash ts
      { d with entries := mapSet d.entries hash ⟨hash, t1, t1, 1, t1, 1⟩ }
      t1 t1 1 (lookup_mapSet _ _ _) hts
    simp only [feedDedup, hfirst, htail]
    rw [List.range_succ_eq_map, List.map_cons, List.map_map]
    refine congrArg₂ _ ?_ ?_
    · simp [hm]
    · refine List.map_congr_left fun i _ => ?_
      simp only [Function.comp]
      refine congrArg₂ Prod.mk ?_ ?_
      · rw [decide_eq_decide]
        constructor <;> intro <;> push_cast at * <;> omega
      · push_cast
        ring
  · intro d hash now hl
    constructor <;> simp [shouldEmit, hl]
  · intro d hash now e hl hw
    constructor <;> simp [shouldEmit, hl, hw]

/-- Witness for C6: max_per_window 3, the same line five times at one
instant — emitted with occurrence counts 1, 2, 3, suppressed at 4 and 5. -/
theorem claim6_dedup_rate_limit_witness :
    (List.lookup (str "h") (Deduplicator.mk [] 300 3).entries = none ∧
      (1 : Int) ≤ (Deduplicator.mk [] 300 3).maxPerWindow ∧
      (∀ t ∈ ([0, 0, 0, 0] : List Int), t - 0 ≤ (Deduplicator.mk [] 300 3).rateWindow) ∧
      (feedDedup (Deduplicator.mk [] 300 3) (str "h") (0 :: [0, 0, 0, 0])).1 =
        (List.range (4 + 1)).map
          (fun (i : Nat) =>
            (decide ((1 : Int) + (i : Int) ≤ (Deduplicator.mk [] 300 3).maxPerWindow),
              (1 : Int) + (i : Int)))) ∧
    (feedDedup (Deduplicator.mk [] 300 3) (str "h") [0, 0, 0, 0, 0]).1 =
      [(true, 1), (true, 2), (true, 3), (false, 4), (false, 5)] :=
  ⟨⟨by decide, by decide, by decide,
    claim6_dedup_rate_limit.1 (Deduplicator.mk [] 300 3) (str "h") 0 [0, 0, 0, 0]
      (by decide) (by decide) (by decide)⟩, by decide⟩

/-- C5 counterexample: with the empty app list, `UpdateApps` clears the
allowed-paths set and the validator re-enters legacy mode, so `/etc` is
accepted although it prefix-matches no element of the (empty) snapshot. -/
theorem claim5_empty_apps_legacy :
    workingDirCheck (updateApps (fun _ => []) [] (newValidator (fun _ => []) []) [])
      (str "/etc") = none ∧
    (str "/etc" : GoStr) ≠ [] ∧
    ¬∃ app ∈ ([] : List AppInfo), hasPref (cleanPath app.path) (cleanPath (str "/etc")) = true := by
  refine ⟨by decide, by decide, ?_⟩
  rintro ⟨app, h, -⟩
  cases h

/-- C5 amended: for every NON-EMPTY discovered-app list S, after
`UpdateApps(S)` a validation with non-empty working directory succeeds
exactly when the directory is NUL-free, traversal-free and its cleaned form
prefix-matches the cleaned path of some element of S; an empty working
directory is always accepted.  (With S empty the allowed-paths set is
cleared and any NUL-free, traversal-free directory is accepted — legacy
mode.) -/
theorem claim5_allowed_paths_snapshot
    (compilePats : List GoStr → List DenyPattern) (defaultPats : List GoStr)
    (v : Validator) (S : List AppInfo) (hS : S ≠ []) (dir : GoStr) :
    workingDirCheck (updateApps compilePats defaultPats v S) dir = none ↔
      (dir = [] ∨
        (containsChar '\x00' dir = false ∧ containsPathTraversal dir = false ∧
          ∃ app ∈ S, hasPref (cleanPath app.path) (cleanPath dir) = true)) := by
  unfold workingDirCheck
  by_cases hd : dir = []
  · simp [hd]
  · rw [if_pos hd, validateWorkingDir_eq]
    have hAP : (updateApps compilePats defaultPats v S).allowedPaths =
        S.map (fun a => cleanPath a.path) := rfl
    rw [hAP]
    have hne : S.map (fun a => cleanPath a.path) ≠ [] := by
      simpa using hS
    split_ifs with h1 h2 h3
    · simp [hd, h1]
    · simp [hd, h2]
    · constructor
      · intro _
        refine Or.inr ⟨by simpa using h1, by simpa using h2, ?_⟩
        rcases List.any_eq_true.mp h3 with ⟨x, hx, hpx⟩
        rcases List.mem_map.mp hx with ⟨app, happ, rfl⟩
        exact ⟨app, happ, hpx⟩
      · intro _
        rfl
    · constructor
      · intro h
        cases h
      · rintro (h | ⟨-, -, app, happ, hpref⟩)
        · exact absurd h hd
        · exact absurd
            (List.any_eq_true.mpr ⟨_, List.mem_map.mpr ⟨app, happ, rfl⟩, hpref⟩) h3

/-- Witness for C5 at a one-app snapshot and a matching subdirectory. -/
theorem claim5_allowed_paths_snapshot_witness :
    ([⟨str "/var/www/app", none⟩] : List AppInfo) ≠ [] ∧
    (workingDirCheck
        (updateApps (fun _ => []) [] (newValidator (fun _ => []) [])
          [⟨str "/var/www/app", none⟩])
        (str "/var/www/app/storage") = none ↔
      (str "/var/www/app/storage" = ([] : GoStr) ∨
        (containsChar '\x00' (str "/var/www/app/storage") = false ∧
          containsPathTraversal (str "/var/www/app/storage") = false ∧
          ∃ app ∈ ([⟨str "/var/www/app", none⟩] : List AppInfo),
            hasPref (cleanPath app.path) (cleanPath (str "/var/www/app/storage")) = true))) :=
  ⟨List.cons_ne_nil _ _,
   claim5_allowed_paths_snapshot (fun _ => []) [] (newValidator (fun _ => []) [])
     [⟨str "/var/www/app", none⟩] (List.cons_ne_nil _ _) (str "/var/www/app/storage")⟩

/-- C3 counterexample: on a wall-clock timeout the subprocess is killed by a
signal, so `cmd.Wait()` yields an `*exec.ExitError` with `ExitCode() = -1`
(as the executor's own timeout test records); the `ExitError` branch runs
before the deadline branch, so the emitted exit code is `-1`, not `124`. -/
theorem claim3_timeout_not_124 :
    executeExitCode (.ran (.exitError (-1)) true) = -1 ∧
    executeExitCode (.ran (.exitError (-1)) true) ≠ 124 ∧
    executeCompletes (str "c4") (.ran (.exitError (-1)) true) = [(str "c4", -1)] :=
  ⟨rfl, by decide, rfl⟩

/-- C3 amended: one CommandResult is always emitted; a clean exit reports 0;
any `*exec.ExitError` (normal non-zero exit or signal kill — including a
timeout kill) reports its own exit code even when the deadline has expired;
`124` appears only for a non-`ExitError` wait failure under an expired
deadline, `1` for other wait failures and for spawn failures. -/
theorem claim3_exit_code_normalization :
    (∀ (id : GoStr) (o : ExecOutcome), executeCompletes id o = [(id, executeExitCode o)]) ∧
    executeExitCode (.ran .success false) = 0 ∧
    (∀ (c : Int) (d : Bool), executeExitCode (.ran (.exitError c) d) = c) ∧
    executeExitCode (.ran .otherError true) = 124 ∧
    executeExitCode (.ran .otherError false) = 1 ∧
    executeExitCode .startFailure = 1 ∧
    executeExitCode .pipeFailure = 1 :=
  ⟨fun _ _ => rfl, rfl, fun _ _ => rfl, rfl, rfl, rfl, rfl⟩

/-- C1: the deny check skips the ENTIRE command body whenever the trimmed
body starts with `#`, so a multi-line command whose first line is a comment
is accepted even though a deny pattern matches a later line: the per-line
loop itself (and the spec's description of it) would reject
`"#c\nrm -rf /"` with `COMMAND_DENIED`, but `checkDenyPatterns` returns
nil for it. -/
theorem claim1_deny_comment_bypass :
    checkDenyPatterns [rmPat] (str "#c\nrm -rf /") = none ∧
    specRemainingLineDenied [rmPat] (str "#c\nrm -rf /") ∧
    checkDenyLines [rmPat] (splitOnChar '\n' (goTrimSpace (str "#c\nrm -rf /"))) =
      some ⟨str "COMMAND_DENIED",
        str "command matches denied pattern: " ++ rmPat.source⟩ :=
  ⟨by decide,
   ⟨str "rm -rf /", by decide, by decide, by decide, rmPat, List.mem_cons_self rmPat [],
    Or.inl (by decide)⟩,
   by decide⟩

/-- Stage 1 of `ProcessLine` touches only the capture fields. -/
theorem captureStep_fields (m : Matcher) (line : GoStr) :
    ((captureStep m line).2).patterns = m.patterns ∧
    ((captureStep m line).2).contextLines = m.contextLines ∧
    ((captureStep m line).2).buffer = m.buffer ∧
    ((captureStep m line).2).bufferPos = m.bufferPos ∧
    ((captureStep m line).2).bufferCount = m.bufferCount := by
  unfold captureStep
  split_ifs <;> exact ⟨rfl, rfl, rfl, rfl, rfl⟩

/-- Stage 2 of `ProcessLine` touches only the capture fields. -/
theorem matchStep_fields (m : Matcher) (source line : GoStr) :
    ((matchStep m source line).2).patterns = m.patterns ∧
    ((matchStep m source line).2).contextLines = m.contextLines ∧
    ((matchStep m source line).2).buffer = m.buffer ∧
    ((matchStep m source line).2).bufferPos = m.bufferPos ∧
    ((matchStep m source line).2).bufferCount = m.bufferCount := by
  unfold matchStep
  split_ifs <;> exact ⟨rfl, rfl, rfl, rfl, rfl⟩

/-- `ProcessLine` preserves the pattern set and the context size. -/
theorem processLine_fields (m : Matcher) (source line : GoStr) :
    ((processLine m source line).2).patterns = m.patterns ∧
    ((processLine m source line).2).contextLines = m.contextLines := by
  have h1 := captureStep_fields m line
  have h2 := matchStep_fields (captureStep m line).2 source line
  constructor
  · show (bufferStep (matchStep (captureStep m line).2 source line).2 line).patterns = _
    rw [show ∀ x l, (bufferStep x l).patterns = x.patterns from fun _ _ => rfl, h2.1, h1.1]
  · show (bufferStep (matchStep (captureStep m line).2 source line).2 line).contextLines = _
    rw [show ∀ x l, (bufferStep x l).contextLines = x.contextLines from fun _ _ => rfl,
      h2.2.1, h1.2.1]

/-- `getContextBefore` reads only the ring-buffer fields. -/
theorem getContextBefore_congr (m m' : Matcher) (hb : m'.buffer = m.buffer)
    (hp : m'.bufferPos = m.bufferPos) (hc : m'.bufferCount = m.bufferCount)
    (hn : m'.contextLines = m.contextLines) :
    getContextBefore m' = getContextBefore m := by
  unfold getContextBefore
  rw [hb, hp, hc, hn]

/-- A fresh matcher satisfies the ring invariant for the empty history. -/
theorem ringInv_init (patterns : List GoStr) (contextLines : Int) :
    ringInv (newMatcher patterns contextLines) [] := by
  unfold ringInv newMatcher
  simp

/-- Reducing a sum under `%` on the left summand. -/
theorem mod_add_mod_eq (a b n : Nat) : (a % n + b) % n = (a + b) % n := by
  conv_rhs => rw [Nat.add_mod]
  rw [Nat.add_mod (a % n) b n, Nat.mod_mod_of_dvd]
  exact dvd_refl n

/-- `ProcessLine` preserves the ring invariant, extending the history. -/
theorem ringInv_step (m : Matcher) (p : List GoStr) (src line : GoStr)
    (hN : 1 ≤ m.contextLines) (h : ringInv m p) :
    ringInv ((processLine m src line).2) (p ++ [line]) := by
  obtain ⟨hlen, hcount, hpos, hget⟩ := h
  have hf1 := captureStep_fields m line
  have hf2 := matchStep_fields (captureStep m line).2 src line
  have e_buf : (matchStep (captureStep m line).2 src line).2.buffer = m.buffer := by
    rw [hf2.2.2.1, hf1.2.2.1]
  have e_pos : (matchStep (captureStep m line).2 src line).2.bufferPos = m.bufferPos := by
    rw [hf2.2.2.2.1, hf1.2.2.2.1]
  have e_count : (matchStep (captureStep m line).2 src line).2.bufferCount = m.bufferCount := by
    rw [hf2.2.2.2.2, hf1.2.2.2.2]
  have e_lines : (matchStep (captureStep m line).2 src line).2.contextLines = m.contextLines := by
    rw [hf2.2.1, hf1.2.1]
  show ringInv (bufferStep (matchStep (captureStep m line).2 src line).2 line) (p ++ [line])
  unfold ringInv bufferStep
  simp only [e_buf, e_pos, e_count, e_lines, List.length_set, List.length_append,
    List.length_singleton]
  set N := m.contextLines with hNdef
  set M := p.length with hMdef
  have hNpos : 0 < N := hN
  have hposM : m.bufferPos = M % N := hpos
  have hposnew : (m.bufferPos + 1) % N = (M + 1) % N := by
    rw [hposM, mod_add_mod_eq]
  refine ⟨hlen, ?_, hposnew, ?_⟩
  · rw [hcount]
    split_ifs with hc <;> omega
  · intro i hi
    have hiN : i < N := lt_of_lt_of_le hi (min_le_right _ _)
    have hiM : i < M + 1 := lt_of_lt_of_le hi (min_le_left _ _)
    rcases Nat.eq_zero_or_pos i with hi0 | hip
    · subst hi0
      have hidx : ((m.bufferPos + 1) % N + (N - 1 - 0)) % N = M % N := by
        rw [hposnew, mod_add_mod_eq, show M + 1 + (N - 1 - 0) = M + N by omega,
          Nat.add_mod_right]
      rw [hidx, List.getD_eq_getElem?_getD, ← hposM,
        List.getElem?_set_self (by rw [hlen, hposM]; exact Nat.mod_lt M hNpos)]
      rw [List.getD_eq_getElem?_getD,
        List.getElem?_append_right (by omega : p.length ≤ M + 1 - 1 - 0)]
      simp
    · have hidx : ((m.bufferPos + 1) % N + (N - 1 - i)) % N = (M + (N - i)) % N := by
        rw [hposnew, mod_add_mod_eq]
        congr 1
        omega
      have hodx : (m.bufferPos + (N - 1 - (i - 1))) % N = (M + (N - i)) % N := by
        rw [hposM, mod_add_mod_eq]
        congr 1
        omega
      have hrlt : M % N < N := Nat.mod_lt M hNpos
      have hne : (M + (N - i)) % N ≠ M % N := by
        intro hEq
        rw [Nat.add_mod M (N - i) N, Nat.mod_eq_of_lt (show N - i < N by omega)] at hEq
        by_cases hlt2 : M % N + (N - i) < N
        · rw [Nat.mod_eq_of_lt hlt2] at hEq
          omega
        · rw [Nat.mod_eq_sub_mod (by omega), Nat.mod_eq_of_lt (by omega)] at hEq
          omega
      have hold := hget (i - 1) (by
        refine Nat.lt_min.mpr ⟨?_, ?_⟩ <;> omega)
      rw [hodx] at hold
      rw [hidx, List.getD_eq_getElem?_getD, List.getElem?_set_ne (by rw [hposM]; exact hne.symm),
        ← List.getD_eq_getElem?_getD, hold]
      rw [show M - 1 - (i - 1) = M - i by omega, show M + 1 - 1 - i = M - i by omega]
      rw [List.getD_eq_getElem?_getD, List.getD_eq_getElem?_getD,
        List.getElem?_append_left (by omega : M - i < p.length)]

/-- Under the ring invariant, `getContextBefore` is the most recent
`min |p| N` processed lines in chronological order. -/
theorem getContextBefore_of_inv (m : Matcher) (p : List GoStr)
    (hN : 1 ≤ m.contextLines) (h : ringInv m p) :
    getContextBefore m = p.drop (p.length - min p.length m.contextLines) := by
  obtain ⟨hlen, hcount, hpos, hget⟩ := h
  set N := m.contextLines with hNdef
  set M := p.length with hMdef
  unfold getContextBefore
  by_cases h0 : min M N = 0
  · have hp0 : p = [] := by
      have hM0 : p.length = 0 := by
        rw [← hMdef]
        omega
      exact List.length_eq_zero.mp hM0
    rw [if_pos (by rw [hcount, h0])]
    simp [hp0]
  · rw [if_neg (by rw [hcount]; exact h0)]
    by_cases hlt : m.bufferCount < N
    · have hMN : M < N := by
        rw [hcount] at hlt
        omega
      have hminM : min M N = M := by omega
      rw [if_pos hlt, hcount, hminM, show M - M = 0 by omega, List.drop_zero]
      apply List.ext_getElem
      · simp
      · intro j h1 h2
        have hjM : j < M := by simpa using h1
        simp only [List.getElem_map, List.getElem_range]
        have hold := hget (M - 1 - j) (by omega)
        rw [hpos, mod_add_mod_eq,
          show M + (N - 1 - (M - 1 - j)) = N + j by omega,
          Nat.add_mod_left, Nat.mod_eq_of_lt (by omega),
          show M - 1 - (M - 1 - j) = j by omega] at hold
        rw [hold, List.getD_eq_getElem]
    · have hNM : N ≤ M := by
        rw [hcount] at hlt
        omega
      have hminN : min M N = N := by omega
      rw [if_neg hlt, hminN, ← hNdef]
      apply List.ext_getElem
      · simp [hminN]
        omega
      · intro j h1 h2
        have hjN : j < N := by simpa using h1
        simp only [List.getElem_map, List.getElem_range, List.getElem_drop]
        have hold := hget (N - 1 - j) (by omega)
        rw [show N - 1 - (N - 1 - j) = j by omega,
          show M - 1 - (N - 1 - j) = M - N + j by omega] at hold
        rw [hold, List.getD_eq_getElem]

/-- Running a list of lines keeps the ring invariant (with the history
extended), the pattern set and the context size. -/
theorem runLines_inv :
    ∀ (ls : List GoStr) (m : Matcher) (p : List GoStr) (src : GoStr),
      1 ≤ m.contextLines → ringInv m p →
      ringInv (runLines m src ls) (p ++ ls) ∧
      (runLines m src ls).patterns = m.patterns ∧
      (runLines m src ls).contextLines = m.contextLines := by
  intro ls
  induction ls with
  | nil =>
    intro m p src hN h
    simpa [runLines] using h
  | cons l ls ih =>
    intro m p src hN h
    have hfields := processLine_fields m src l
    have hstep := ringInv_step m p src l hN h
    have hrec := ih (processLine m src l).2 (p ++ [l]) src (by rw [hfields.2]; exact hN) hstep
    have hrun : runLines m src (l :: ls) = runLines (processLine m src l).2 src ls := rfl
    rw [hrun]
    refine ⟨?_, hrec.2.1.trans hfields.1, hrec.2.2.trans hfields.2⟩
    have := hrec.1
    rwa [List.append_assoc, List.singleton_append] at this

/-- When the incoming line matches, `ProcessLine` leaves a fresh capture
whose `ContextBefore` is the ring-buffer snapshot of before the line. -/
theorem processLine_capture (m : Matcher) (src line : GoStr)
    (hl : matchesPattern m.patterns line = true) :
    ((processLine m src line).2).capturing = true ∧
    ((processLine m src line).2).captureMatch = ⟨src, line, getContextBefore m, []⟩ := by
  have hf1 := captureStep_fields m line
  have hgcb : getContextBefore (captureStep m line).2 = getContextBefore m :=
    getContextBefore_congr _ _ hf1.2.2.1 hf1.2.2.2.1 hf1.2.2.2.2 hf1.2.1
  have hml : matchesPattern (captureStep m line).2.patterns line = true := by
    rw [hf1.1]
    exact hl
  show (bufferStep (matchStep (captureStep m line).2 src line).2 line).capturing = true ∧
    (bufferStep (matchStep (captureStep m line).2 src line).2 line).captureMatch = _
  rw [show ∀ x l, (bufferStep x l).capturing = x.capturing from fun _ _ => rfl,
    show ∀ x l, (bufferStep x l).captureMatch = x.captureMatch from fun _ _ => rfl]
  unfold matchStep
  rw [hml]
  split_ifs with h1 h2 <;> first | exact absurd rfl h1 | simp [hgcb]

/-- C7: with context_lines = N, when a matching line arrives after the lines
`ls` have been processed, the new capture's `ContextBefore` is exactly the
most recent `min |ls| N` preceding lines in chronological order (so exactly
N lines once more than N lines have gone by), and a flush emits exactly
that capture. -/
theorem claim7_ring_context (pats : List GoStr) (N : Nat) (hN : 0 < N)
    (src : GoStr) (ls : List GoStr) (line : GoStr)
    (hl : matchesPattern pats line = true) :
    ((processLine (runLines (newMatcher pats (N : Int)) src ls) src line).2).capturing = true ∧
    ((processLine (runLines (newMatcher pats (N : Int)) src ls) src
        line).2).captureMatch.contextBefore =
      ls.drop (ls.length - min ls.length N) ∧
    ((processLine (runLines (newMatcher pats (N : Int)) src
        ls) src line).2).captureMatch.contextBefore.length = min ls.length N ∧
    ((processLine (runLines (newMatcher pats (N : Int)) src ls) src
        line).2).captureMatch.errorLine = line ∧
    (flushMatcher ((processLine (runLines (newMatcher pats (N : Int)) src ls) src
        line).2)).1 =
      [((processLine (runLines (newMatcher pats (N : Int)) src ls) src
          line).2).captureMatch] := by
  have hn0 : (newMatcher pats (N : Int)).contextLines = N := by
    unfold newMatcher
    rw [if_neg (by omega)]
    simp
  have hinv0 : ringInv (newMatcher pats (N : Int)) [] := ringInv_init pats (N : Int)
  obtain ⟨hinv, hrpats, hrlines⟩ :=
    runLines_inv ls (newMatcher pats (N : Int)) [] src (by omega) hinv0
  rw [List.nil_append] at hinv
  have hcap := processLine_capture (runLines (newMatcher pats (N : Int)) src ls) src line
    (by rw [hrpats]; exact hl)
  have hgcb := getContextBefore_of_inv (runLines (newMatcher pats (N : Int)) src ls) ls
    (by rw [hrlines, hn0]; omega) hinv
  rw [hrlines, hn0] at hgcb
  refine ⟨hcap.1, ?_, ?_, ?_, ?_⟩
  · rw [hcap.2]
    exact hgcb
  · rw [hcap.2]
    show (getContextBefore _).length = _
    rw [hgcb]
    simp only [List.length_drop]
    omega
  · rw [hcap.2]
  · unfold flushMatcher
    rw [if_pos hcap.1]

/-- Splitting an equality of strings around a separator character that
occurs in neither left part. -/
theorem append_sepCons_inj (c : Char) :
    ∀ (a b s t : GoStr), c ∉ a → c ∉ b → a ++ c :: s = b ++ c :: t → a = b ∧ s = t := by
  intro a
  induction a with
  | nil =>
    intro b s t ha hb h
    cases b with
    | nil => simpa using h
    | cons x b' =>
      exfalso
      simp only [List.nil_append, List.cons_append, List.cons.injEq] at h
      exact hb (List.mem_cons.mpr (Or.inl h.1))
  | cons y a' ih =>
    intro b s t ha hb h
    cases b with
    | nil =>
      exfalso
      simp only [List.nil_append, List.cons_append, List.cons.injEq] at h
      exact ha (List.mem_cons.mpr (Or.inl h.1.symm))
    | cons x b' =>
      simp only [List.cons_append, List.cons.injEq] at h
      have hrec := ih b' s t (fun hm => ha (List.mem_cons.mpr (Or.inr hm)))
        (fun hm => hb (List.mem_cons.mpr (Or.inr hm))) h.2
      exact ⟨by rw [h.1, hrec.1], hrec.2⟩

/-- `strings.Join` with a separator is injective on lists of non-empty,
separator-free strings. -/
theorem joinChar_inj (c : Char) :
    ∀ l1 l2 : List GoStr, (∀ q ∈ l1, q ≠ [] ∧ c ∉ q) → (∀ q ∈ l2, q ≠ [] ∧ c ∉ q) →
      joinChar c l1 = joinChar c l2 → l1 = l2 := by
  intro l1
  induction l1 with
  | nil =>
    intro l2 h1 h2 hj
    cases l2 with
    | nil => rfl
    | cons q l2' =>
      exfalso
      cases l2' with
      | nil => exact (h2 q (by simp)).1 hj.symm
      | cons r l2'' =>
        have hx : ([] : GoStr) = q ++ c :: joinChar c (r :: l2'') := hj
        simp at hx
  | cons q l1' ih =>
    intro l2 h1 h2 hj
    cases l2 with
    | nil =>
      exfalso
      cases l1' with
      | nil => exact (h1 q (by simp)).1 hj
      | cons r l1'' =>
        have hx : q ++ c :: joinChar c (r :: l1'') = ([] : GoStr) := hj
        simp at hx
    | cons p l2' =>
      cases l1' with
      | nil =>
        cases l2' with
        | nil =>
          have hx : q = p := hj
          rw [hx]
        | cons r2 l2'' =>
          exfalso
          have hx : q = p ++ c :: joinChar c (r2 :: l2'') := hj
          exact (h1 q (by simp)).2
            (hx ▸ List.mem_append_right p (List.mem_cons_self c _))
      | cons r1 l1'' =>
        cases l2' with
        | nil =>
          exfalso
          have hx : q ++ c :: joinChar c (r1 :: l1'') = p := hj
          exact (h2 p (by simp)).2
            (hx ▸ List.mem_append_right q (List.mem_cons_self c _))
        | cons r2 l2'' =>
          have hx : q ++ c :: joinChar c (r1 :: l1'') = p ++ c :: joinChar c (r2 :: l2'') := hj
          have hsplit := append_sepCons_inj c q p _ _ (h1 q (by simp)).2 (h2 p (by simp)).2 hx
          have htail := ih (r2 :: l2'') (fun x hxm => h1 x (by simp [hxm]))
            (fun x hxm => h2 x (by simp [hxm])) hsplit.2
          rw [hsplit.1, htail]

/-- Digit characters are never a newline. -/
theorem digitChar_ne_nl : ∀ d < 10, digitChar d ≠ '\n' := by decide

/-- Reading a digit character back. -/
theorem digitVal_digitChar : ∀ d < 10, (digitChar d).toNat - 48 = d := by decide

/-- The decimal rendering contains no newline. -/
theorem natDec_not_nl (n : Nat) : '\n' ∉ natDec n := by
  unfold natDec
  intro hmem
  rcases List.mem_map.mp hmem with ⟨d, hd, hEq⟩
  exact digitChar_ne_nl d
    (Nat.digits_lt_base (by norm_num) (List.mem_reverse.mp hd)) hEq

/-- The decimal rendering is injective. -/
theorem natDec_inj (a b : Nat) (h : natDec a = natDec b) : a = b := by
  unfold natDec at h
  have hlt : ∀ m : Nat, ∀ d ∈ (Nat.digits 10 m).reverse, d < 10 := fun m d hd =>
    Nat.digits_lt_base (by norm_num) (List.mem_reverse.mp hd)
  have key : ∀ m : Nat,
      List.map ((fun ch : Char => ch.toNat - 48) ∘ digitChar) (Nat.digits 10 m).reverse =
        (Nat.digits 10 m).reverse := by
    intro m
    have step : List.map ((fun ch : Char => ch.toNat - 48) ∘ digitChar)
        (Nat.digits 10 m).reverse =
        List.map (fun d => d) (Nat.digits 10 m).reverse :=
      List.map_congr_left fun d hd => by
        simpa using digitVal_digitChar d (hlt m d hd)
    rw [step, List.map_id']
  have hm := congrArg (List.map (fun ch : Char => ch.toNat - 48)) h
  rw [List.map_map, List.map_map, key a, key b] at hm
  have hdig : Nat.digits 10 a = Nat.digits 10 b := by
    have hmr := congrArg List.reverse hm
    simpa using hmr
  rw [← Nat.ofDigits_digits 10 a, ← Nat.ofDigits_digits 10 b, hdig]

/-- A permutation of images under a map that is injective across the two
lists reflects to a permutation of the lists. -/
theorem perm_of_map_perm {α β : Type} (f : α → β) :
    ∀ l1 l2 : List α, (∀ a ∈ l1, ∀ b ∈ l2, f a = f b → a = b) →
      (l1.map f).Perm (l2.map f) → l1.Perm l2 := by
  intro l1
  induction l1 with
  | nil =>
    intro l2 hinj hperm
    have h2 : l2.map f = [] := hperm.symm.eq_nil
    rw [List.map_eq_nil_iff.mp h2]
  | cons a t ih =>
    intro l2 hinj hperm
    have hmem : f a ∈ l2.map f := hperm.mem_iff.mp (by simp)
    rcases List.mem_map.mp hmem with ⟨b, hb, hfb⟩
    have hab : a = b := hinj a (by simp) b hb hfb.symm
    subst hab
    obtain ⟨s, u, rfl⟩ := List.append_of_mem hb
    have hmap : (t.map f).Perm ((s ++ u).map f) := by
      have hx : ((a :: t).map f).Perm ((s ++ a :: u).map f) := hperm
      rw [List.map_cons, List.map_append, List.map_cons] at hx
      have hmid : (s.map f ++ f a :: u.map f).Perm (f a :: (s.map f ++ u.map f)) :=
        List.perm_middle
      have hy := (hx.trans hmid).cons_inv
      rwa [← List.map_append] at hy
    have ht := ih (s ++ u)
      (fun x hx y hy hxy => hinj x (List.mem_cons.mpr (Or.inr hx)) y (by
        rcases List.mem_append.mp hy with hy' | hy'
        · exact List.mem_append.mpr (Or.inl hy')
        · exact List.mem_append.mpr (Or.inr (List.mem_cons.mpr (Or.inr hy')))) hxy)
      hmap
    exact (ht.cons a).trans List.perm_middle.symm

/-- A string starting with a non-empty literal is non-empty. -/
theorem strAppend_ne_nil (s : String) (x : GoStr) (hs : s.data ≠ []) : str s ++ x ≠ [] := by
  intro h
  rcases List.append_eq_nil.mp h with ⟨h1, -⟩
  exact hs h1

/-- A string starting with a non-empty literal is non-empty (three-part
form, since `++` associates left). -/
theorem strAppend3_ne_nil (s : String) (x y : GoStr) (hs : s.data ≠ []) :
    (str s ++ x) ++ y ≠ [] := by
  intro h
  rcases List.append_eq_nil.mp h with ⟨h1, -⟩
  exact strAppend_ne_nil s x hs h1

/-- Every canonical part of a well-formed command is non-empty and
newline-free. -/
theorem canonicalParts_wf (c : SignedCommand) (h : wfSigned c) :
    ∀ q ∈ canonicalParts c, q ≠ [] ∧ '\n' ∉ q := by
  obtain ⟨ht, hi, hcm, hw, hts, hn, henv, -⟩ := h
  intro q hq
  unfold canonicalParts at hq
  rcases List.mem_append.mp hq with hq1 | hqe
  · rcases List.mem_append.mp hq1 with hq2 | hqt
    · rcases List.mem_append.mp hq2 with hqf | hqw
      · unfold fixedParts at hqf
        simp only [List.mem_cons, List.not_mem_nil, or_false] at hqf
        rcases hqf with rfl | rfl | rfl | rfl | rfl
        · refine ⟨strAppend_ne_nil _ _ (by decide), fun hmem => ?_⟩
          rcases List.mem_append.mp hmem with hk | hv
          · exact absurd hk (by decide)
          · exact hcm hv
        · refine ⟨strAppend_ne_nil _ _ (by decide), fun hmem => ?_⟩
          rcases List.mem_append.mp hmem with hk | hv
          · exact absurd hk (by decide)
          · exact hi hv
        · refine ⟨strAppend_ne_nil _ _ (by decide), fun hmem => ?_⟩
          rcases List.mem_append.mp hmem with hk | hv
          · exact absurd hk (by decide)
          · exact hn hv
        · refine ⟨strAppend_ne_nil _ _ (by decide), fun hmem => ?_⟩
          rcases List.mem_append.mp hmem with hk | hv
          · exact absurd hk (by decide)
          · exact hts hv
        · refine ⟨strAppend_ne_nil _ _ (by decide), fun hmem => ?_⟩
          rcases List.mem_append.mp hmem with hk | hv
          · exact absurd hk (by decide)
          · exact ht hv
      · unfold wdParts at hqw
        by_cases hwd : c.workingDir = []
        · rw [if_pos hwd] at hqw
          cases hqw
        · rw [if_neg hwd] at hqw
          have hqeq := List.mem_singleton.mp hqw
          subst hqeq
          refine ⟨strAppend_ne_nil _ _ (by decide), fun hmem => ?_⟩
          rcases List.mem_append.mp hmem with hk | hv
          · exact absurd hk (by decide)
          · exact hw hv
    · unfold toParts at hqt
      by_cases hto : c.timeout > 0
      · rw [if_pos hto] at hqt
        have hqeq := List.mem_singleton.mp hqt
        subst hqeq
        refine ⟨strAppend_ne_nil _ _ (by decide), fun hmem => ?_⟩
        rcases List.mem_append.mp hmem with hk | hv
        · exact absurd hk (by decide)
        · exact natDec_not_nl _ hv
      · rw [if_neg hto] at hqt
        cases hqt
  · unfold envParts at hqe
    rcases List.mem_map.mp hqe with ⟨kv, hkv, rfl⟩
    have hkvwf := henv kv ((List.perm_insertionSort _ _).mem_iff.mp hkv)
    refine ⟨strAppend3_ne_nil _ _ _ (by decide), fun hmem => ?_⟩
    rcases List.mem_append.mp hmem with hk1 | hv2
    · rcases List.mem_append.mp hk1 with hk | hkey
      · exact absurd hk (by decide)
      · exact hkvwf.1 hkey
    · rcases List.mem_cons.mp hv2 with hEq | hv3
      · exact absurd hEq (by decide)
      · exact hkvwf.2.1 hv3

/-- A predicate false on every env line filters `envParts` to nothing. -/
theorem filter_envParts_false (c : SignedCommand) (p : GoStr → Bool)
    (hp : ∀ kv : GoStr × GoStr, p (str "env." ++ kv.1 ++ '=' :: kv.2) = false) :
    (envParts c).filter p = [] := by
  unfold envParts
  rw [List.filter_map]
  have hz : List.filter (p ∘ fun kv => str "env." ++ kv.1 ++ '=' :: kv.2)
      (sortEnv c.env) = [] :=
    List.filter_eq_nil_iff.mpr fun kv _ => by
      simp only [Function.comp_apply]
      rw [hp kv]
      simp
  rw [hz, List.map_nil]

/-- The `env.` prefix keeps every env line. -/
theorem filter_envParts_true (c : SignedCommand) :
    (envParts c).filter (fun q => hasPref (str "env.") q) = envParts c := by
  unfold envParts
  rw [List.filter_map]
  have hall : List.filter ((fun q => hasPref (str "env.") q) ∘
      fun kv => str "env." ++ kv.1 ++ '=' :: kv.2) (sortEnv c.env) = sortEnv c.env :=
    List.filter_eq_self.mpr fun kv _ => rfl
  rw [hall]

/-- Filtering the canonical parts by the `command=` prefix. -/
theorem filter_parts_command (c : SignedCommand) :
    (canonicalParts c).filter (fun q => hasPref (str "command=") q) =
      [str "command=" ++ c.command] := by
  unfold canonicalParts
  rw [List.filter_append, List.filter_append, List.filter_append]
  have hf : (fixedParts c).filter (fun q => hasPref (str "command=") q) =
      [str "command=" ++ c.command] := rfl
  have hw : (wdParts c).filter (fun q => hasPref (str "command=") q) = [] := by
    unfold wdParts
    split_ifs <;> rfl
  have hto : (toParts c).filter (fun q => hasPref (str "command=") q) = [] := by
    unfold toParts
    split_ifs <;> rfl
  have he := filter_envParts_false c (fun q => hasPref (str "command=") q) (fun kv => rfl)
  rw [hf, hw, hto, he]
  simp

/-- Filtering the canonical parts by the `id=` prefix. -/
theorem filter_parts_id (c : SignedCommand) :
    (canonicalParts c).filter (fun q => hasPref (str "id=") q) = [str "id=" ++ c.id] := by
  unfold canonicalParts
  rw [List.filter_append, List.filter_append, List.filter_append]
  have hf : (fixedParts c).filter (fun q => hasPref (str "id=") q) =
      [str "id=" ++ c.id] := rfl
  have hw : (wdParts c).filter (fun q => hasPref (str "id=") q) = [] := by
    unfold wdParts
    split_ifs <;> rfl
  have hto : (toParts c).filter (fun q => hasPref (str "id=") q) = [] := by
    unfold toParts
    split_ifs <;> rfl
  have he := filter_envParts_false c (fun q => hasPref (str "id=") q) (fun kv => rfl)
  rw [hf, hw, hto, he]
  simp

/-- Filtering the canonical parts by the `nonce=` prefix. -/
theorem filter_parts_nonce (c : SignedCommand) :
    (canonicalParts c).filter (fun q => hasPref (str "nonce=") q) =
      [str "nonce=" ++ c.nonce] := by
  unfold canonicalParts
  rw [List.filter_append, List.filter_append, List.filter_append]
  have hf : (fixedParts c).filter (fun q => hasPref (str "nonce=") q) =
      [str "nonce=" ++ c.nonce] := rfl
  have hw : (wdParts c).filter (fun q => hasPref (str "nonce=") q) = [] := by
    unfold wdParts
    split_ifs <;> rfl
  have hto : (toParts c).filter (fun q => hasPref (str "nonce=") q) = [] := by
    unfold toParts
    split_ifs <;> rfl
  have he := filter_envParts_false c (fun q => hasPref (str "nonce=") q) (fun kv => rfl)
  rw [hf, hw, hto, he]
  simp

/-- Filtering the canonical parts by the `timestamp=` prefix. -/
theorem filter_parts_timestamp (c : SignedCommand) :
    (canonicalParts c).filter (fun q => hasPref (str "timestamp=") q) =
      [str "timestamp=" ++ c.timestamp] := by
  unfold canonicalParts
  rw [List.filter_append, List.filter_append, List.filter_append]
  have hf : (fixedParts c).filter (fun q => hasPref (str "timestamp=") q) =
      [str "timestamp=" ++ c.timestamp] := rfl
  have hw : (wdParts c).filter (fun q => hasPref (str "timestamp=") q) = [] := by
    unfold wdParts
    split_ifs <;> rfl
  have hto : (toParts c).filter (fun q => hasPref (str "timestamp=") q) = [] := by
    unfold toParts
    split_ifs <;> rfl
  have he := filter_envParts_false c (fun q => hasPref (str "timestamp=") q) (fun kv => rfl)
  rw [hf, hw, hto, he]
  simp

/-- Filtering the canonical parts by the `type=` prefix. -/
theorem filter_parts_type (c : SignedCommand) :
    (canonicalParts c).filter (fun q => hasPref (str "type=") q) =
      [str "type=" ++ c.type] := by
  unfold canonicalParts
  rw [List.filter_append, List.filter_append, List.filter_append]
  have hf : (fixedParts c).filter (fun q => hasPref (str "type=") q) =
      [str "type=" ++ c.type] := rfl
  have hw : (wdParts c).filter (fun q => hasPref (str "type=") q) = [] := by
    unfold wdParts
    split_ifs <;> rfl
  have hto : (toParts c).filter (fun q => hasPref (str "type=") q) = [] := by
    unfold toParts
    split_ifs <;> rfl
  have he := filter_envParts_false c (fun q => hasPref (str "type=") q) (fun kv => rfl)
  rw [hf, hw, hto, he]
  simp

/-- Filtering the canonical parts by the `working_dir=` prefix. -/
theorem filter_parts_wd (c : SignedCommand) :
    (canonicalParts c).filter (fun q => hasPref (str "working_dir=") q) = wdParts c := by
  unfold canonicalParts
  rw [List.filter_append, List.filter_append, List.filter_append]
  have hf : (fixedParts c).filter (fun q => hasPref (str "working_dir=") q) = [] := rfl
  have hw : (wdParts c).filter (fun q => hasPref (str "working_dir=") q) = wdParts c := by
    unfold wdParts
    split_ifs <;> rfl
  have hto : (toParts c).filter (fun q => hasPref (str "working_dir=") q) = [] := by
    unfold toParts
    split_ifs <;> rfl
  have he := filter_envParts_false c (fun q => hasPref (str "working_dir=") q) (fun kv => rfl)
  rw [hf, hw, hto, he]
  simp

/-- Filtering the canonical parts by the `timeout=` prefix. -/
theorem filter_parts_timeout (c : SignedCommand) :
    (canonicalParts c).filter (fun q => hasPref (str "timeout=") q) = toParts c := by
  unfold canonicalParts
  rw [List.filter_append, List.filter_append, List.filter_append]
  have hf : (fixedParts c).filter (fun q => hasPref (str "timeout=") q) = [] := rfl
  have hw : (wdParts c).filter (fun q => hasPref (str "timeout=") q) = [] := by
    unfold wdParts
    split_ifs <;> rfl
  have hto : (toParts c).filter (fun q => hasPref (str "timeout=") q) = toParts c := by
    unfold toParts
    split_ifs <;> rfl
  have he := filter_envParts_false c (fun q => hasPref (str "timeout=") q) (fun kv => rfl)
  rw [hf, hw, hto, he]
  simp

/-- Filtering the canonical parts by the `env.` prefix. -/
theorem filter_parts_env (c : SignedCommand) :
    (canonicalParts c).filter (fun q => hasPref (str "env.") q) = envParts c := by
  unfold canonicalParts
  rw [List.filter_append, List.filter_append, List.filter_append]
  have hf : (fixedParts c).filter (fun q => hasPref (str "env.") q) = [] := rfl
  have hw : (wdParts c).filter (fun q => hasPref (str "env.") q) = [] := by
    unfold wdParts
    split_ifs <;> rfl
  have hto : (toParts c).filter (fun q => hasPref (str "env.") q) = [] := by
    unfold toParts
    split_ifs <;> rfl
  have he := filter_envParts_true c
  rw [hf, hw, hto, he]
  simp

/-- C2 counterexample: the canonical serialization is NOT injective on the
claimed fields.  Changing `timeout` from 0 to -1 leaves the canonical bytes
identical (the line is emitted only for positive timeouts), and so does
moving the `=` between an env name and its value (`{A: "B=C"}` versus
`{A=B: "C"}` both serialize the line `env.A=B=C`); an Ed25519 signature for
one therefore verifies for the other. -/
theorem claim2_canonical_collision :
    (canonicalMessage ⟨str "command", str "a", str "ls", [], [], 0, str "T", str "N"⟩ =
        canonicalMessage ⟨str "command", str "a", str "ls", [], [], -1, str "T", str "N"⟩ ∧
      (SignedCommand.mk (str "command") (str "a") (str "ls") [] [] 0 (str "T")
          (str "N")).timeout ≠
        (SignedCommand.mk (str "command") (str "a") (str "ls") [] [] (-1) (str "T")
          (str "N")).timeout) ∧
    (canonicalMessage
        ⟨str "command", str "a", str "ls", [], [(str "A", str "B=C")], 0, str "T", str "N"⟩ =
        canonicalMessage
          ⟨str "command", str "a", str "ls", [], [(str "A=B", str "C")], 0, str "T",
            str "N"⟩ ∧
      (SignedCommand.mk (str "command") (str "a") (str "ls") [] [(str "A", str "B=C")] 0
          (str "T") (str "N")).env ≠
        (SignedCommand.mk (str "command") (str "a") (str "ls") [] [(str "A=B", str "C")] 0
          (str "T") (str "N")).env) := by
  refine ⟨⟨?_, by decide⟩, ?_, by decide⟩
  · have h : canonicalParts ⟨str "command", str "a", str "ls", [], [], 0, str "T", str "N"⟩ =
        canonicalParts ⟨str "command", str "a", str "ls", [], [], -1, str "T", str "N"⟩ := by
      decide
    unfold canonicalMessage
    rw [h]
  · have h : canonicalParts
        ⟨str "command", str "a", str "ls", [], [(str "A", str "B=C")], 0, str "T", str "N"⟩ =
        canonicalParts
          ⟨str "command", str "a", str "ls", [], [(str "A=B", str "C")], 0, str "T",
            str "N"⟩ := by
      decide
    unfold canonicalMessage
    rw [h]

/-- C2 amended: on well-formed signed commands (no newline in any signed
field, no `=` in env names, distinct env names), equal canonical byte
strings force equal type, id, command, working_dir, env (as a map),
timestamp and nonce, and equal timeouts unless both are non-positive — so
any other mutation changes the Ed25519 message and invalidates the
signature. -/
theorem claim2_canonical_injective (c1 c2 : SignedCommand)
    (h1 : wfSigned c1) (h2 : wfSigned c2)
    (hcan : canonicalMessage c1 = canonicalMessage c2) :
    c1.type = c2.type ∧ c1.id = c2.id ∧ c1.command = c2.command ∧
    c1.workingDir = c2.workingDir ∧ c1.env.Perm c2.env ∧
    (c1.timeout = c2.timeout ∨ (c1.timeout ≤ 0 ∧ c2.timeout ≤ 0)) ∧
    c1.timestamp = c2.timestamp ∧ c1.nonce = c2.nonce := by
  have hw1 := canonicalParts_wf c1 h1
  have hw2 := canonicalParts_wf c2 h2
  have hSeq : sortStrings (canonicalParts c1) = sortStrings (canonicalParts c2) := by
    apply joinChar_inj '\n'
    · intro q hq
      exact hw1 q ((List.perm_insertionSort _ _).mem_iff.mp hq)
    · intro q hq
      exact hw2 q ((List.perm_insertionSort _ _).mem_iff.mp hq)
    · exact hcan
  have hperm : (canonicalParts c1).Perm (canonicalParts c2) := by
    have p1 : (canonicalParts c1).Perm (sortStrings (canonicalParts c1)) :=
      (List.perm_insertionSort _ _).symm
    have p2 : (sortStrings (canonicalParts c2)).Perm (canonicalParts c2) :=
      List.perm_insertionSort _ _
    rw [hSeq] at p1
    exact p1.trans p2
  have htype : c1.type = c2.type := by
    have hp := hperm.filter (fun q => hasPref (str "type=") q)
    rw [filter_parts_type, filter_parts_type] at hp
    have he := List.perm_singleton.mp hp
    injection he with hx
    exact List.append_cancel_left hx
  have hid : c1.id = c2.id := by
    have hp := hperm.filter (fun q => hasPref (str "id=") q)
    rw [filter_parts_id, filter_parts_id] at hp
    have he := List.perm_singleton.mp hp
    injection he with hx
    exact List.append_cancel_left hx
  have hcmd : c1.command = c2.command := by
    have hp := hperm.filter (fun q => hasPref (str "command=") q)
    rw [filter_parts_command, filter_parts_command] at hp
    have he := List.perm_singleton.mp hp
    injection he with hx
    exact List.append_cancel_left hx
  have hts : c1.timestamp = c2.timestamp := by
    have hp := hperm.filter (fun q => hasPref (str "timestamp=") q)
    rw [filter_parts_timestamp, filter_parts_timestamp] at hp
    have he := List.perm_singleton.mp hp
    injection he with hx
    exact List.append_cancel_left hx
  have hnonce : c1.nonce = c2.nonce := by
    have hp := hperm.filter (fun q => hasPref (str "nonce=") q)
    rw [filter_parts_nonce, filter_parts_nonce] at hp
    have he := List.perm_singleton.mp hp
    injection he with hx
    exact List.append_cancel_left hx
  have hwd : c1.workingDir = c2.workingDir := by
    have hp := hperm.filter (fun q => hasPref (str "working_dir=") q)
    rw [filter_parts_wd, filter_parts_wd] at hp
    unfold wdParts at hp
    by_cases hbc1 : c1.workingDir = [] <;> by_cases hbc2 : c2.workingDir = []
    · rw [hbc1, hbc2]
    · rw [if_pos hbc1, if_neg hbc2] at hp
      exact absurd hp.length_eq (by simp)
    · rw [if_neg hbc1, if_pos hbc2] at hp
      exact absurd hp.length_eq (by simp)
    · rw [if_neg hbc1, if_neg hbc2] at hp
      have he := List.perm_singleton.mp hp
      injection he with hx
      exact List.append_cancel_left hx
  have hto : c1.timeout = c2.timeout ∨ (c1.timeout ≤ 0 ∧ c2.timeout ≤ 0) := by
    have hp := hperm.filter (fun q => hasPref (str "timeout=") q)
    rw [filter_parts_timeout, filter_parts_timeout] at hp
    unfold toParts at hp
    by_cases hbc1 : c1.timeout > 0 <;> by_cases hbc2 : c2.timeout > 0
    · rw [if_pos hbc1, if_pos hbc2] at hp
      have he := List.perm_singleton.mp hp
      injection he with hx
      have hnd := natDec_inj _ _ (List.append_cancel_left hx)
      left
      omega
    · rw [if_pos hbc1, if_neg hbc2] at hp
      exact absurd hp.length_eq (by simp)
    · rw [if_neg hbc1, if_pos hbc2] at hp
      exact absurd hp.length_eq (by simp)
    · right
      omega
  have henvp : c1.env.Perm c2.env := by
    have hp := hperm.filter (fun q => hasPref (str "env.") q)
    rw [filter_parts_env, filter_parts_env] at hp
    unfold envParts at hp
    have hinj : ∀ a ∈ sortEnv c1.env, ∀ b ∈ sortEnv c2.env,
        str "env." ++ a.1 ++ '=' :: a.2 = str "env." ++ b.1 ++ '=' :: b.2 → a = b := by
      intro a ha b hb hfab
      have ha' := h1.2.2.2.2.2.2.1 a ((List.perm_insertionSort _ _).mem_iff.mp ha)
      have hb' := h2.2.2.2.2.2.2.1 b ((List.perm_insertionSort _ _).mem_iff.mp hb)
      have hsplit := append_sepCons_inj '=' (str "env." ++ a.1) (str "env." ++ b.1) a.2 b.2
        (by
          intro hm
          rcases List.mem_append.mp hm with hm' | hm'
          · exact absurd hm' (by decide)
          · exact ha'.2.2 hm')
        (by
          intro hm
          rcases List.mem_append.mp hm with hm' | hm'
          · exact absurd hm' (by decide)
          · exact hb'.2.2 hm')
        hfab
      exact Prod.ext (List.append_cancel_left hsplit.1) hsplit.2
    have hsp := perm_of_map_perm _ _ _ hinj hp
    have q1 : c1.env.Perm (sortEnv c1.env) := (List.perm_insertionSort _ _).symm
    have q2 : (sortEnv c2.env).Perm c2.env := List.perm_insertionSort _ _
    exact (q1.trans hsp).trans q2
  exact ⟨htype, hid, hcmd, hwd, henvp, hto, hts, hnonce⟩

/-- Witness for C2 at a concrete well-formed command compared to itself. -/
theorem claim2_canonical_injective_witness :
    wfSigned ⟨str "command", str "c1", str "echo hi", [], [(str "A", str "B")], 0,
      str "T", str "N"⟩ ∧
    ((SignedCommand.mk (str "command") (str "c1") (str "echo hi") []
        [(str "A", str "B")] 0 (str "T") (str "N")).type =
      (SignedCommand.mk (str "command") (str "c1") (str "echo hi") []
        [(str "A", str "B")] 0 (str "T") (str "N")).type ∧
      str "c1" = str "c1" ∧ str "echo hi" = str "echo hi" ∧ ([] : GoStr) = [] ∧
      ([(str "A", str "B")] : List (GoStr × GoStr)).Perm [(str "A", str "B")] ∧
      ((0 : Int) = 0 ∨ ((0 : Int) ≤ 0 ∧ (0 : Int) ≤ 0)) ∧
      str "T" = str "T" ∧ str "N" = str "N") :=
  ⟨by unfold wfSigned noNL; decide,
   claim2_canonical_injective
     ⟨str "command", str "c1", str "echo hi", [], [(str "A", str "B")], 0, str "T", str "N"⟩
     ⟨str "command", str "c1", str "echo hi", [], [(str "A", str "B")], 0, str "T", str "N"⟩
     (by unfold wfSigned noNL; decide) (by unfold wfSigned noNL; decide) rfl⟩

/-- Witness for C7: three context lines, five preceding lines, a matching
line — `ContextBefore` is the three most recent. -/
theorem claim7_ring_context_witness :
    (0 < 3 ∧ matchesPattern [str "error"] (str "an ERROR here") = true) ∧
    ((processLine (runLines (newMatcher [str "error"] ((3 : Nat) : Int)) (str "f")
        [str "l1", str "l2", str "l3", str "l4", str "l5"]) (str "f")
        (str "an ERROR here")).2).captureMatch.contextBefore =
      [str "l1", str "l2", str "l3", str "l4", str "l5"].drop
        ([str "l1", str "l2", str "l3", str "l4", str "l5"].length -
          min [str "l1", str "l2", str "l3", str "l4", str "l5"].length 3) :=
  ⟨⟨by decide, by decide⟩,
   (claim7_ring_context [str "error"] 3 (by decide) (str "f")
     [str "l1", str "l2", str "l3", str "l4", str "l5"] (str "an ERROR here")
     (by decide)).2.1⟩

end Antidote
